import Mathlib

/-!
Verification of the MMM-GitPushy data-acquisition engine (node_helper.js).

This file shallowly embeds the engine's data model and operations in Lean:
JavaScript `Map`s become association lists, `Date.now()` becomes an explicit
`now : Int` argument (epoch milliseconds), `process.env` becomes a function
`String → Option String`, and the outbound network becomes an explicit
oracle parameter.  ISO timestamp strings such as `updated_at` are embedded
as the integer value `new Date(s).getTime()` yields, since the engine only
ever compares those values numerically.  `null`/`undefined` JavaScript
values are embedded as `Option.none`; JavaScript truthiness on strings is
the predicate `truthyOpt` below.
-/

namespace GitPushy

/-- Models JavaScript truthiness for a nullable string value: `null`,
`undefined` and the empty string are falsy, every other string is truthy. -/
def truthyOpt : Option String → Bool
  | some s => s != ""
  | none => false

/-- Models `Number(s)` applied to the decimal-digit strings that occur as
`x-ratelimit-reset` header values; a string that is not a plain decimal
numeral yields `none` (JavaScript `NaN`). -/
def jsNumber? (s : String) : Option Nat :=
  s.toNat?

/-- Models `Map.prototype.get` over the association-list embedding of a
JavaScript `Map` with string keys. -/
def mapGet {β : Type} : List (String × β) → String → Option β
  | [], _ => none
  | (k', v) :: rest, k => if k' = k then some v else mapGet rest k

/-- Models `Map.prototype.set`: replaces the value stored under the key if
present, otherwise appends a new entry (insertion order preserved). -/
def mapSet {β : Type} : List (String × β) → String → β → List (String × β)
  | [], k, v => [(k, v)]
  | (k', v') :: rest, k, v =>
      if k' = k then (k, v) :: rest else (k', v') :: mapSet rest k v

/-- Models the interpolation `${x}` of a nullable string into a template
literal (JavaScript prints `null` for a null value). -/
def jsTemplateOpt : Option String → String
  | some s => s
  | none => "null"

/-- One configured repository target (the entries of `config.targets`). -/
structure Target where
  owner : String := ""
  repo : String := ""
  displayName : Option String := none
  baseBranchesMode : Option String := none
  baseBranches : Option (List String) := none
  defaultBranchOverride : Option String := none
deriving DecidableEq

/-- The `auth` section of a normalized configuration. -/
structure AuthConfig where
  token : Option String
  tokenEnvVar : Option String
  apiBaseUrl : String
deriving DecidableEq

/-- The `query` section of a normalized configuration. -/
structure QueryConfig where
  state : String
  includeDrafts : Bool
deriving DecidableEq

/-- The `limits` section of a normalized configuration.  The source treats
these as JavaScript numbers and only ever passes them to `Array.slice`;
they are embedded as naturals (the configured defaults are 20 and 10). -/
structure LimitsConfig where
  maxTotal : Nat
  maxPerRepo : Nat
deriving DecidableEq

/-- The `refresh` section of a normalized configuration. -/
structure RefreshConfig where
  updateIntervalMs : Int
  backoffOnRateLimit : Bool
deriving DecidableEq

/-- The `alerts` section of a normalized configuration. -/
structure AlertsConfig where
  showOnAuthError : Bool
deriving DecidableEq

/-- A normalized engine configuration: the result of merging a supplied
configuration over `DEFAULT_CONFIG`.  The presentation-only sections
(`display`, `grouping`) are never read by the engine and are not
represented. -/
structure Config where
  auth : AuthConfig
  targets : List Target
  query : QueryConfig
  limits : LimitsConfig
  refresh : RefreshConfig
  alerts : AlertsConfig
deriving DecidableEq

/-- The engine's `DEFAULT_CONFIG` object. -/
def DEFAULT_CONFIG : Config where
  auth := { token := none, tokenEnvVar := some "GITHUB_TOKEN",
            apiBaseUrl := "https://api.github.com" }
  targets := []
  query := { state := "open", includeDrafts := true }
  limits := { maxTotal := 20, maxPerRepo := 10 }
  refresh := { updateIntervalMs := 300000, backoffOnRateLimit := true }
  alerts := { showOnAuthError := true }

/-- Partial `auth` section as supplied over the socket: an outer `none`
means the key is absent (the default applies); for the nullable leaves the
inner option is the supplied value. -/
structure PartialAuth where
  token : Option (Option String) := none
  tokenEnvVar : Option (Option String) := none
  apiBaseUrl : Option String := none

/-- Partial `query` section as supplied over the socket. -/
structure PartialQuery where
  state : Option String := none
  includeDrafts : Option Bool := none

/-- Partial `limits` section as supplied over the socket. -/
structure PartialLimits where
  maxTotal : Option Nat := none
  maxPerRepo : Option Nat := none

/-- Partial `refresh` section as supplied over the socket. -/
structure PartialRefresh where
  updateIntervalMs : Option Int := none
  backoffOnRateLimit : Option Bool := none

/-- Partial `alerts` section as supplied over the socket. -/
structure PartialAlerts where
  showOnAuthError : Option Bool := none

/-- A configuration object as supplied by a display instance, before the
defaults are applied.  Incoming socket payload configurations carry only the
recognized keys; in particular none carry a `lastData` field. -/
structure PartialConfig where
  auth : Option PartialAuth := none
  targets : Option (List Target) := none
  query : Option PartialQuery := none
  limits : Option PartialLimits := none
  refresh : Option PartialRefresh := none
  alerts : Option PartialAlerts := none

/-- Models `applyDefaults(config, DEFAULT_CONFIG)` restricted to the
recognized configuration schema: a key absent from the supplied object takes
the default; a present section object is merged field by field.  The merge
builds a fresh object, so fields absent from both inputs (such as
`lastData`) are absent from the result. -/
def applyDefaults (config : PartialConfig) : Config where
  auth :=
    match config.auth with
    | none => DEFAULT_CONFIG.auth
    | some a =>
        { token := match a.token with
            | none => DEFAULT_CONFIG.auth.token
            | some v => v
          tokenEnvVar := match a.tokenEnvVar with
            | none => DEFAULT_CONFIG.auth.tokenEnvVar
            | some v => v
          apiBaseUrl := match a.apiBaseUrl with
            | none => DEFAULT_CONFIG.auth.apiBaseUrl
            | some v => v }
  targets := config.targets.getD DEFAULT_CONFIG.targets
  query :=
    match config.query with
    | none => DEFAULT_CONFIG.query
    | some q =>
        { state := q.state.getD DEFAULT_CONFIG.query.state
          includeDrafts := q.includeDrafts.getD DEFAULT_CONFIG.query.includeDrafts }
  limits :=
    match config.limits with
    | none => DEFAULT_CONFIG.limits
    | some l =>
        { maxTotal := l.maxTotal.getD DEFAULT_CONFIG.limits.maxTotal
          maxPerRepo := l.maxPerRepo.getD DEFAULT_CONFIG.limits.maxPerRepo }
  refresh :=
    match config.refresh with
    | none => DEFAULT_CONFIG.refresh
    | some r =>
        { updateIntervalMs := r.updateIntervalMs.getD DEFAULT_CONFIG.refresh.updateIntervalMs
          backoffOnRateLimit := r.backoffOnRateLimit.getD DEFAULT_CONFIG.refresh.backoffOnRateLimit }
  alerts :=
    match config.alerts with
    | none => DEFAULT_CONFIG.alerts
    | some al =>
        { showOnAuthError := al.showOnAuthError.getD DEFAULT_CONFIG.alerts.showOnAuthError }

/-- Models `handleRateLimit(response)`: reads the `x-ratelimit-remaining`
and `x-ratelimit-reset` headers (absent header ↦ `none`); when the
remaining quota is the string `"0"` and the reset header is truthy and
parses to a number, the process-wide suppression timestamp becomes
`reset * 1000`; otherwise the state is untouched. -/
def handleRateLimit (remaining reset : Option String) (backoffUntil : Option Int) :
    Option Int :=
  match reset with
  | some s =>
      if remaining = some "0" ∧ s ≠ "" then
        match jsNumber? s with
        | some n => some ((n : Int) * 1000)
        | none => backoffUntil
      else backoffUntil
  | none => backoffUntil

/-- Models `isRateLimited(config)` at time `now` (the engine's
`Date.now()`): false when backoff is disabled or no suppression timestamp is
set (a zero timestamp is falsy in JavaScript), otherwise `now <
backoffUntil`. -/
def isRateLimited (config : Config) (backoffUntil : Option Int) (now : Int) : Bool :=
  if config.refresh.backoffOnRateLimit = false then false
  else
    match backoffUntil with
    | none => false
    | some v => if v = 0 then false else decide (now < v)

/-- Models `getAuthToken(config)`: a configured token that is truthy and
nonempty after trimming wins; otherwise the value of the named environment
variable (no lookup when the variable name itself is falsy). -/
def getAuthToken (env : String → Option String) (config : Config) : Option String :=
  let fromEnv : Option String :=
    match config.auth.tokenEnvVar with
    | some v => if v ≠ "" then env v else none
    | none => none
  match config.auth.token with
  | some t => if t ≠ "" ∧ t.trim ≠ "" then some t else fromEnv
  | none => fromEnv

/-- Models `formatError(error)`: an error with a truthy `message` yields the
message, anything else the generic text. -/
def formatError (msg : Option String) : String :=
  match msg with
  | some m => if m ≠ "" then m else "Unknown error fetching GitHub pull requests."
  | none => "Unknown error fetching GitHub pull requests."

/-- The error text emitted when the rate-limit guard is engaged. -/
def rateLimitMessage : String := "GitHub rate limit hit. Waiting to retry."

/-- The error text emitted when no credential resolves (the template literal
interpolates the configured environment-variable name). -/
def missingTokenMessage (config : Config) : String :=
  "Missing GitHub token (set auth.token or env var "
    ++ jsTemplateOpt config.auth.tokenEnvVar ++ ")."

/-! ## HTTP layer: `httpGet`, the conditional-request cache and pagination -/

/-- An outbound request as `httpGet` assembles it: the URL, the
`Authorization` header (present only for a truthy token) and the
`If-None-Match` header (present only for a stored truthy validator).  The
constant `User-Agent` header is not represented. -/
structure HttpReq where
  url : String
  authToken : Option String
  ifNoneMatch : Option String
deriving DecidableEq

/-- The parts of a `fetch` response the engine reads: the status code, the
parsed JSON body (type parameter `α`), the body text (read only to build an
error message), and the `etag`, rate-limit and `link` response headers. -/
structure HttpResp (α : Type) where
  status : Nat
  json : α
  bodyText : String := ""
  etag : Option String := none
  ratelimitRemaining : Option String := none
  ratelimitReset : Option String := none
  link : Option String := none

/-- Models `response.ok`: true exactly for a 2xx status. -/
def respOk (status : Nat) : Bool :=
  200 ≤ status ∧ status ≤ 299

/-- A payload as `httpGet` stores and returns it: the plain parsed body, or
(on the paginated path) the body paired with the next-page URL. -/
inductive PayloadVal (α : Type) where
  | plain (data : α)
  | paged (data : α) (nextUrl : Option String)
deriving DecidableEq

/-- One entry of the engine's `httpCache`: the last stored payload, the
last-seen entity-tag validator and the timestamp of the last fetch. -/
structure CacheEntry (α : Type) where
  data : PayloadVal α
  etag : Option String
  fetchedAt : Int
deriving DecidableEq

/-- The state `httpGet` reads and writes: the keyed conditional-request
cache and the process-wide rate-limit suppression timestamp. -/
structure HttpState (α : Type) where
  httpCache : List (String × CacheEntry α) := []
  backoffUntil : Option Int := none
deriving DecidableEq

/-- The header bundle `httpGet` sends for a given token and (possibly
absent) stored validator. -/
def requestOf (url : String) (token : Option String) (cachedEtag : Option String) :
    HttpReq where
  url := url
  authToken := if truthyOpt token then token else none
  ifNoneMatch := if truthyOpt cachedEtag then cachedEtag else none

/-- The characters of the literal `rel="next"` the link-header parser looks
for. -/
def relNextChars : List Char := String.toList "rel=\"next\""

/-- Reads the URL between `<` and `>`: the characters up to the first `>`
(at least one required), and the remainder after the `>`. -/
def takeUrl : List Char → List Char → Option (String × List Char)
  | [], _ => none
  | c :: rest, acc =>
      if c = '>' then
        if acc.isEmpty then none else some (String.mk acc.reverse, rest)
      else takeUrl rest (c :: acc)

/-- After the closing `>`, the pattern requires `;`, optional whitespace and
the literal `rel="next"`. -/
def relFollows : List Char → Bool
  | ';' :: rest => relNextChars.isPrefixOf (rest.dropWhile Char.isWhitespace)
  | _ => false

/-- Scans one comma-separated segment of a link header for a match of the
pattern `<([^>]+)>;\s*rel="next"` and returns the captured URL. -/
def scanSegment : List Char → Option String
  | [] => none
  | c :: rest =>
      if c = '<' then
        match takeUrl rest [] with
        | some (url, after) =>
            if relFollows after then some url else scanSegment rest
        | none => scanSegment rest
      else scanSegment rest

/-- The first segment with a `rel="next"` match, if any. -/
def firstNextMatch : List String → Option String
  | [] => none
  | seg :: rest =>
      match scanSegment seg.toList with
      | some u => some u
      | none => firstNextMatch rest

/-- Models `getNextPageUrl(linkHeader)`: a falsy header yields `null`;
otherwise the header is split on commas and each segment matched against
`<([^>]+)>;\s*rel="next"` (case-sensitively), returning the first captured
URL. -/
def getNextPageUrl (linkHeader : Option String) : Option String :=
  match linkHeader with
  | none => none
  | some h => firstNextMatch (h.splitOn ",")

/-- The tail of `httpGet` once a network response is in hand and the 304
path did not apply: a non-2xx response records the rate-limit headers and
produces the thrown error; a 2xx response stores and returns the (possibly
pagination-wrapped) payload with the response's validator. -/
def httpStoreResponse {α : Type} (st : HttpState α) (cacheKey : String)
    (includePagination : Bool) (now : Int) (resp : HttpResp α) :
    Except String (PayloadVal α) × HttpState α × Nat :=
  if respOk resp.status = false then
    (Except.error ("GitHub API error " ++ toString resp.status ++ ": " ++ resp.bodyText),
     { st with backoffUntil :=
         handleRateLimit resp.ratelimitRemaining resp.ratelimitReset st.backoffUntil },
     1)
  else
    let payload : PayloadVal α :=
      if includePagination then PayloadVal.paged resp.json (getNextPageUrl resp.link)
      else PayloadVal.plain resp.json
    (Except.ok payload,
     { st with httpCache :=
         mapSet st.httpCache cacheKey { data := payload, etag := resp.etag, fetchedAt := now } },
     1)

/-- The network path of `httpGet`: issues the conditional request; a 304
response with a stored entry bumps only that entry's freshness timestamp and
returns the stored payload; otherwise the response is handled by
`httpStoreResponse`.  The third component counts network calls issued. -/
def httpFetchNetwork {α : Type} (net : HttpReq → HttpResp α) (st : HttpState α)
    (url : String) (token : Option String) (cacheKey : String)
    (includePagination : Bool) (now : Int) (cached : Option (CacheEntry α)) :
    Except String (PayloadVal α) × HttpState α × Nat :=
  let resp := net (requestOf url token (match cached with
    | some c => c.etag
    | none => none))
  match cached with
  | some c =>
      if resp.status = 304 then
        (Except.ok c.data,
         { st with httpCache := mapSet st.httpCache cacheKey { c with fetchedAt := now } },
         1)
      else httpStoreResponse st cacheKey includePagination now resp
  | none => httpStoreResponse st cacheKey includePagination now resp

/-- Models `httpGet(url, token, cacheKey, ttl, includePagination)` at time
`now`: a stored entry younger than `ttl` is returned without any network
call; otherwise the conditional request is issued (`httpFetchNetwork`). -/
def httpGet {α : Type} (net : HttpReq → HttpResp α) (st : HttpState α)
    (url : String) (token : Option String) (cacheKey : String) (ttl : Int)
    (includePagination : Bool) (now : Int) :
    Except String (PayloadVal α) × HttpState α × Nat :=
  match mapGet st.httpCache cacheKey with
  | some c =>
      if now - c.fetchedAt < ttl then (Except.ok c.data, st, 0)
      else httpFetchNetwork net st url token cacheKey includePagination now (some c)
  | none => httpFetchNetwork net st url token cacheKey includePagination now none

/-! ## Branch resolver -/

/-- One entry of `repoMetaCache`: the resolved default branch (possibly
null) and the time it was fetched. -/
structure RepoMetaEntry where
  defaultBranch : Option String
  fetchedAt : Int
deriving DecidableEq

/-- The ternary `b ? [b] : []` applied to a nullable branch name. -/
def branchList (db : Option String) : List String :=
  if truthyOpt db then [db.getD ""] else []

/-- Models `resolveDefaultBranch(target, config, token)`.  The repository
metadata HTTP call (itself routed through `httpGet` with a one-hour TTL) is
abstracted as its outcome `metaFetch`: on success the value of
`data.default_branch || null`, on failure the thrown error.  A cached entry
younger than one hour answers directly; a successful fetch is cached; a
failed fetch is logged and resolves to the empty branch list. -/
def resolveDefaultBranch (target : Target) (cache : List (String × RepoMetaEntry))
    (now : Int) (metaFetch : Except String (Option String)) :
    List String × List (String × RepoMetaEntry) :=
  let cacheKey := target.owner ++ "/" ++ target.repo
  let fetchPath : List String × List (String × RepoMetaEntry) :=
    match metaFetch with
    | Except.ok db =>
        let defaultBranch := if truthyOpt db then db else none
        (branchList defaultBranch,
         mapSet cache cacheKey { defaultBranch := defaultBranch, fetchedAt := now })
    | Except.error _ => ([], cache)
  match mapGet cache cacheKey with
  | some c =>
      if now - c.fetchedAt < 3600000 then (branchList c.defaultBranch, cache)
      else fetchPath
  | none => fetchPath

/-- Models `resolveBaseBranches(target, config, token)`: mode `all` yields
the empty list; mode `list` yields a non-empty explicit branch array
verbatim and otherwise falls through to `resolveDefaultBranch`; any other
mode (including the default `defaultOnly`) returns the singleton of a
truthy `defaultBranchOverride` or falls through to
`resolveDefaultBranch`. -/
def resolveBaseBranches (target : Target) (cache : List (String × RepoMetaEntry))
    (now : Int) (metaFetch : Except String (Option String)) :
    List String × List (String × RepoMetaEntry) :=
  let mode := match target.baseBranchesMode with
    | some m => if m = "" then "defaultOnly" else m
    | none => "defaultOnly"
  if mode = "all" then ([], cache)
  else if mode = "list" then
    match target.baseBranches with
    | some bs =>
        if bs.length > 0 then (bs, cache)
        else resolveDefaultBranch target cache now metaFetch
    | none => resolveDefaultBranch target cache now metaFetch
  else if truthyOpt target.defaultBranchOverride then
    ([target.defaultBranchOverride.getD ""], cache)
  else resolveDefaultBranch target cache now metaFetch

/-! ## Aggregator pipeline -/

/-- A pull request as the list endpoint returns it, restricted to the fields
the engine reads (`uniquePulls` keys on `number`; the draft filter reads
`draft`; `title` stands in for the remaining payload so that distinct
records sharing a number stay distinguishable). -/
structure RawPull where
  number : Int
  title : String := ""
  draft : Bool := false
deriving DecidableEq

/-- The inner recursion of `uniquePulls`: the `forEach` loop carried out
with the explicit `seen` set (as a list of numbers) and the accumulated
`unique` array. -/
def uniqueAux (seen : List Int) (acc : List RawPull) : List RawPull → List RawPull
  | [] => acc
  | pr :: rest =>
      if seen.contains pr.number then uniqueAux seen acc rest
      else uniqueAux (pr.number :: seen) (acc ++ [pr]) rest

/-- Models `uniquePulls(pulls)`: walks the list front to back, keeping a
record only when its `number` has not been seen before. -/
def uniquePulls (pulls : List RawPull) : List RawPull :=
  uniqueAux [] [] pulls

/-- The engine's output unit (the object literal built in `fetchRepoPulls`),
restricted to the fields downstream code reads; `updated_at` and
`created_at` are embedded as the integer `new Date(s).getTime()` yields for
the ISO string, since the sort comparator only uses that value. -/
structure PullRecord where
  repo : String := ""
  repoLabel : String := ""
  owner : String := ""
  number : Int := 0
  title : String := ""
  html_url : String := ""
  updated_at : Int := 0
  created_at : Int := 0
  authorLogin : Option String := none
  additions : Int := 0
  deletions : Int := 0
  changed_files : Int := 0
  draft : Bool := false
deriving DecidableEq

/-- The descending-by-`updated_at` order the sort comparator
`(a, b) => timeB - timeA` establishes. -/
def prGe (a b : PullRecord) : Prop :=
  b.updated_at ≤ a.updated_at

/-- Stable insertion into a descending-sorted list: the element goes in
front of the first entry whose `updated_at` does not exceed its own, so an
earlier input element precedes later ties. -/
def insertDesc (a : PullRecord) : List PullRecord → List PullRecord
  | [] => [a]
  | b :: l =>
      if b.updated_at ≤ a.updated_at then a :: b :: l
      else b :: insertDesc a l

/-- Models `results.sort((a, b) => timeB - timeA)`: the stable descending
sort by `updated_at` that ECMAScript 2019 requires `Array.prototype.sort`
to produce, computed here by stable insertion sort. -/
def sortByUpdatedDesc (l : List PullRecord) : List PullRecord :=
  l.foldr insertDesc []

/-- The list handed to the global sort: each target's `fetchRepoPulls`
result sliced to `maxPerRepo` entries, concatenated in target order. -/
def mergeStage (targetPulls : List (List PullRecord)) (maxPerRepo : Nat) :
    List PullRecord :=
  (targetPulls.map (fun prs => prs.take maxPerRepo)).flatten

/-- Models `fetchAllTargets(config, token)` with the per-target
`fetchRepoPulls` results supplied as `targetPulls` (one list per configured
target, in order; the network and caching inside `fetchRepoPulls` are
abstracted by that argument): each target's list is sliced to `maxPerRepo`
and pushed onto `results`, which is then sorted descending by `updated_at`
and sliced to `maxTotal`. -/
def fetchAllTargets (targetPulls : List (List PullRecord)) (limits : LimitsConfig) :
    List PullRecord :=
  let results := targetPulls.foldl (fun acc prs => acc ++ prs.take limits.maxPerRepo) []
  let sorted := sortByUpdatedDesc results
  sorted.take limits.maxTotal

/-! ## Instance scheduler -/

/-- What `this.instances` maps an instance id to: the normalized
configuration object, which after a successful run additionally carries the
`lastData` property (the property is written onto the stored object, so it
is part of the map entry). -/
structure InstanceEntry where
  config : Config
  lastData : Option (List PullRecord) := none
deriving DecidableEq

/-- What `this.timers` maps an instance id to; the opaque timer handle is
not represented, only the interval the timer was created with. -/
structure TimerEntry where
  interval : Int
deriving DecidableEq

/-- The scheduler-level engine state (the `httpCache` and `repoMetaCache`
maps are only touched inside the aggregation run, which the scheduler model
abstracts; they are modeled with `httpGet` and `resolveDefaultBranch`). -/
structure EngineState where
  instances : List (String × InstanceEntry) := []
  timers : List (String × TimerEntry) := []
  backoffUntil : Option Int := none
deriving DecidableEq

/-- A socket notification the engine sends back to the display layer. -/
inductive Emission where
  | data (instanceId : String) (prs : List PullRecord)
  | error (instanceId : String) (message : String) (prs : List PullRecord)
deriving DecidableEq

/-- Models `getCachedData(instanceId)`: the stored instance's `lastData`, or
the empty list when the instance or the property is absent. -/
def getCachedData (st : EngineState) (instanceId : String) : List PullRecord :=
  match mapGet st.instances instanceId with
  | some entry => entry.lastData.getD []
  | none => []

/-- Models `registerInstance(instanceId, config)`: the supplied
configuration (or `{}` when falsy) is normalized over the defaults and
stored as a fresh map entry — so any `lastData` on the previously stored
object is gone — and the periodic timer is created, or recreated only when
the configured interval changed. -/
def registerInstance (st : EngineState) (instanceId : String)
    (config : Option PartialConfig) : EngineState :=
  let normalized := applyDefaults (config.getD {})
  let instances := mapSet st.instances instanceId { config := normalized, lastData := none }
  let interval := normalized.refresh.updateIntervalMs
  let timers :=
    match mapGet st.timers instanceId with
    | none => mapSet st.timers instanceId { interval := interval }
    | some existing =>
        if existing.interval ≠ interval then mapSet st.timers instanceId { interval := interval }
        else st.timers
  { st with instances := instances, timers := timers }

/-- Models one invocation of `fetchAndSend(instanceId)` at time `now`.  The
awaited `fetchAllTargets` call — the only network access in the function —
is abstracted as its outcome `agg` (`Except.error` carries the thrown
error's nullable `message`).  Returns the new state, the emitted socket
notifications, and whether the aggregation run (and hence any network
access) was started. -/
def fetchAndSend (env : String → Option String) (now : Int)
    (agg : Except (Option String) (List PullRecord)) (st : EngineState)
    (instanceId : String) : EngineState × List Emission × Bool :=
  match mapGet st.instances instanceId with
  | none => (st, [], false)
  | some entry =>
      if isRateLimited entry.config st.backoffUntil now then
        (st, [Emission.error instanceId rateLimitMessage (getCachedData st instanceId)], false)
      else
        let token := getAuthToken env entry.config
        if truthyOpt token = false ∧ entry.config.alerts.showOnAuthError then
          (st,
           [Emission.error instanceId (missingTokenMessage entry.config)
              (getCachedData st instanceId)],
           false)
        else
          match agg with
          | Except.ok prs =>
              ({ st with instances :=
                   mapSet st.instances instanceId { entry with lastData := some prs } },
               [Emission.data instanceId prs], true)
          | Except.error e =>
              (st,
               [Emission.error instanceId (formatError e) (getCachedData st instanceId)],
               true)

/-- An inbound socket payload: the instance identifier and the instance's
configuration, either of which a malformed payload may lack. -/
structure SocketPayload where
  instanceId : Option String := none
  config : Option PartialConfig := none

/-- Models `socketNotificationReceived(notification, payload)`: a falsy
payload or falsy `payload.instanceId` returns immediately;
`GITPUSHY_CONFIG` registers the instance; `GITPUSHY_FETCH` registers and
then runs `fetchAndSend`. -/
def socketNotificationReceived (notification : String) (payload : Option SocketPayload)
    (env : String → Option String) (now : Int)
    (agg : Except (Option String) (List PullRecord)) (st : EngineState) :
    EngineState × List Emission × Bool :=
  match payload with
  | none => (st, [], false)
  | some p =>
      if truthyOpt p.instanceId = false then (st, [], false)
      else
        let instanceId := p.instanceId.getD ""
        if notification = "GITPUSHY_CONFIG" then
          (registerInstance st instanceId p.config, [], false)
        else if notification = "GITPUSHY_FETCH" then
          fetchAndSend env now agg (registerInstance st instanceId p.config) instanceId
        else (st, [], false)

/-! ## Lemmas about the map embedding -/

theorem mapGet_mapSet_self {β : Type} (m : List (String × β)) (k : String) (v : β) :
    mapGet (mapSet m k v) k = some v := by
  induction m with
  | nil => simp [mapSet, mapGet]
  | cons hd tl ih =>
      obtain ⟨k', v'⟩ := hd
      by_cases h : k' = k
      · simp [mapSet, mapGet, h]
      · simp [mapSet, mapGet, h, ih]

theorem mapGet_mapSet_ne {β : Type} (m : List (String × β)) (k k' : String) (v : β)
    (h : k' ≠ k) : mapGet (mapSet m k v) k' = mapGet m k' := by
  induction m with
  | nil => simp [mapSet, mapGet, Ne.symm h]
  | cons hd tl ih =>
      obtain ⟨k₀, v₀⟩ := hd
      by_cases h0 : k₀ = k
      · subst h0
        simp [mapSet, mapGet, Ne.symm h]
      · simp [mapSet, mapGet, h0, ih]

/-! ## Lemmas about the stable descending sort -/

theorem mem_insertDesc {a x : PullRecord} : ∀ {l : List PullRecord},
    x ∈ insertDesc a l ↔ x = a ∨ x ∈ l := by
  intro l
  induction l with
  | nil => simp [insertDesc]
  | cons b l ih =>
      by_cases h : b.updated_at ≤ a.updated_at
      · simp [insertDesc, h, List.mem_cons]
      · simp only [insertDesc, if_neg h, List.mem_cons, ih]
        tauto

theorem perm_insertDesc (a : PullRecord) : ∀ (l : List PullRecord),
    (insertDesc a l).Perm (a :: l) := by
  intro l
  induction l with
  | nil => simp [insertDesc]
  | cons b l ih =>
      by_cases h : b.updated_at ≤ a.updated_at
      · simp [insertDesc, h]
      · rw [insertDesc, if_neg h]
        exact (ih.cons b).trans (List.Perm.swap a b l)

theorem pairwise_insertDesc {a : PullRecord} : ∀ {l : List PullRecord},
    l.Pairwise prGe → (insertDesc a l).Pairwise prGe := by
  intro l
  induction l with
  | nil => intro _; simp [insertDesc, prGe]
  | cons b l ih =>
      intro h
      rcases List.pairwise_cons.mp h with ⟨hb, hl⟩
      by_cases hba : b.updated_at ≤ a.updated_at
      · rw [insertDesc, if_pos hba]
        refine List.Pairwise.cons ?_ h
        intro x hx
        rcases List.mem_cons.mp hx with rfl | hxl
        · exact hba
        · exact le_trans (hb x hxl) hba
      · rw [insertDesc, if_neg hba]
        refine List.Pairwise.cons ?_ (ih hl)
        intro x hx
        rcases mem_insertDesc.mp hx with rfl | hxl
        · exact le_of_not_le hba
        · exact hb x hxl

theorem sortByUpdatedDesc_pairwise : ∀ (l : List PullRecord),
    (sortByUpdatedDesc l).Pairwise prGe := by
  intro l
  induction l with
  | nil => simp [sortByUpdatedDesc]
  | cons a l ih => exact pairwise_insertDesc ih

theorem sortByUpdatedDesc_perm : ∀ (l : List PullRecord),
    (sortByUpdatedDesc l).Perm l := by
  intro l
  induction l with
  | nil => simp [sortByUpdatedDesc]
  | cons a l ih => exact (perm_insertDesc a (sortByUpdatedDesc l)).trans (ih.cons a)

theorem filter_insertDesc (a : PullRecord) (t : Int) : ∀ (l : List PullRecord),
    (insertDesc a l).filter (fun p => p.updated_at == t)
      = if a.updated_at = t then a :: l.filter (fun p => p.updated_at == t)
        else l.filter (fun p => p.updated_at == t) := by
  intro l
  induction l with
  | nil =>
      by_cases h : a.updated_at = t <;> simp [insertDesc, h]
  | cons b l ih =>
      by_cases hba : b.updated_at ≤ a.updated_at
      · rw [insertDesc, if_pos hba]
        by_cases ha : a.updated_at = t <;> simp [List.filter_cons, ha]
      · rw [insertDesc, if_neg hba]
        by_cases ha : a.updated_at = t
        · have hb : ¬ b.updated_at = t := by omega
          simp [List.filter_cons, ha, hb, ih]
        · by_cases hb : b.updated_at = t <;> simp [List.filter_cons, ha, hb, ih]

theorem filter_sortByUpdatedDesc (t : Int) : ∀ (l : List PullRecord),
    (sortByUpdatedDesc l).filter (fun p => p.updated_at == t)
      = l.filter (fun p => p.updated_at == t) := by
  intro l
  induction l with
  | nil => simp [sortByUpdatedDesc]
  | cons a l ih =>
      show (insertDesc a (sortByUpdatedDesc l)).filter _ = _
      rw [filter_insertDesc]
      by_cases ha : a.updated_at = t <;> simp [List.filter_cons, ha, ih]

theorem filter_take_isPrefixOf {α : Type} (l : List α) (p : α → Bool) (m : Nat) :
    ((l.take m).filter p).IsPrefix (l.filter p) :=
  ⟨(l.drop m).filter p, by rw [← List.filter_append, List.take_append_drop]⟩

theorem fetchAllTargets_eq (targetPulls : List (List PullRecord)) (limits : LimitsConfig) :
    fetchAllTargets targetPulls limits
      = (sortByUpdatedDesc (mergeStage targetPulls limits.maxPerRepo)).take limits.maxTotal := by
  have h : ∀ (ls : List (List PullRecord)) (init : List PullRecord),
      ls.foldl (fun acc prs => acc ++ prs.take limits.maxPerRepo) init
        = init ++ (ls.map (fun prs => prs.take limits.maxPerRepo)).flatten := by
    intro ls
    induction ls with
    | nil => intro init; simp
    | cons hd tl ih => intro init; simp [ih]
  simp [fetchAllTargets, mergeStage, h]

/-! ## Lemmas about deduplication -/

theorem contains_eq_decide_mem (seen : List Int) (n : Int) :
    seen.contains n = decide (n ∈ seen) := by
  simp [List.contains]

/-- How many elements of the list are first occurrences of a number not yet
in `seen` (the number of records `uniqueAux` keeps). -/
def countNew (seen : List Int) : List Int → Nat
  | [] => 0
  | n :: rest =>
      if n ∈ seen then countNew seen rest
      else 1 + countNew (n :: seen) rest

theorem length_uniqueAux : ∀ (pulls : List RawPull) (seen : List Int) (acc : List RawPull),
    (uniqueAux seen acc pulls).length
      = acc.length + countNew seen (pulls.map (fun p => p.number)) := by
  intro pulls
  induction pulls with
  | nil => intro seen acc; simp [uniqueAux, countNew]
  | cons pr rest ih =>
      intro seen acc
      by_cases hseen : pr.number ∈ seen
      · simp [uniqueAux, countNew, contains_eq_decide_mem, hseen, ih]
      · simp [uniqueAux, countNew, contains_eq_decide_mem, hseen, ih]
        omega

theorem countNew_eq_card : ∀ (ns : List Int) (seen : List Int),
    countNew seen ns = (ns.toFinset \ seen.toFinset).card := by
  intro ns
  induction ns with
  | nil => intro seen; simp [countNew]
  | cons n rest ih =>
      intro seen
      by_cases h : n ∈ seen
      · have hset : (n :: rest).toFinset \ seen.toFinset = rest.toFinset \ seen.toFinset := by
          ext x
          simp only [List.toFinset_cons, Finset.mem_sdiff, Finset.mem_insert,
            List.mem_toFinset]
          constructor
          · rintro ⟨rfl | hx, hns⟩
            · exact absurd h hns
            · exact ⟨hx, hns⟩
          · rintro ⟨hx, hns⟩
            exact ⟨Or.inr hx, hns⟩
        simp only [countNew, if_pos h, ih, hset]
      · have hset : (n :: rest).toFinset \ seen.toFinset
            = insert n (rest.toFinset \ (n :: seen).toFinset) := by
          ext x
          simp only [List.toFinset_cons, Finset.mem_sdiff, Finset.mem_insert,
            List.mem_toFinset, List.mem_cons]
          constructor
          · rintro ⟨rfl | hx, hns⟩
            · exact Or.inl rfl
            · by_cases hxn : x = n
              · exact Or.inl hxn
              · exact Or.inr ⟨hx, by tauto⟩
          · rintro (rfl | ⟨hx, hns⟩)
            · exact ⟨Or.inl rfl, h⟩
            · exact ⟨Or.inr hx, by tauto⟩
        have hnot : n ∉ rest.toFinset \ (n :: seen).toFinset := by
          simp [Finset.mem_sdiff]
        rw [countNew, if_neg h, ih, hset, Finset.card_insert_of_not_mem hnot]
        omega

theorem countNew_nil_eq_dedup_length (ns : List Int) :
    countNew [] ns = ns.dedup.length := by
  rw [countNew_eq_card]
  simp [List.card_toFinset]

theorem filter_uniqueAux (n : Int) : ∀ (pulls : List RawPull) (seen : List Int)
    (acc : List RawPull),
    (uniqueAux seen acc pulls).filter (fun p => p.number == n)
      = acc.filter (fun p => p.number == n)
        ++ (if n ∈ seen then []
            else (pulls.filter (fun p => p.number == n)).take 1) := by
  intro pulls
  induction pulls with
  | nil =>
      intro seen acc
      by_cases h : n ∈ seen <;> simp [uniqueAux, h]
  | cons pr rest ih =>
      intro seen acc
      by_cases hseen : pr.number ∈ seen
      · rw [show uniqueAux seen acc (pr :: rest)
              = uniqueAux seen acc rest by
            simp [uniqueAux, contains_eq_decide_mem, hseen], ih]
        by_cases hn : pr.number = n
        · rw [hn] at hseen
          simp [List.filter_cons, hseen]
        · simp [List.filter_cons, hn]
      · rw [show uniqueAux seen acc (pr :: rest)
              = uniqueAux (pr.number :: seen) (acc ++ [pr]) rest by
            simp [uniqueAux, contains_eq_decide_mem, hseen], ih]
        by_cases hn : pr.number = n
        · subst hn
          simp [List.filter_append, List.filter_cons, hseen]
        · have hcc : (n ∈ pr.number :: seen) ↔ n ∈ seen := by
            simp [List.mem_cons]
            exact fun hh => absurd hh.symm hn
          simp [List.filter_append, List.filter_cons, hn, hcc]

theorem uniqueAux_append_sublist : ∀ (pulls : List RawPull) (seen : List Int)
    (acc : List RawPull),
    ∃ sub, uniqueAux seen acc pulls = acc ++ sub ∧ sub.Sublist pulls := by
  intro pulls
  induction pulls with
  | nil =>
      intro seen acc
      exact ⟨[], by simp [uniqueAux], List.nil_sublist _⟩
  | cons pr rest ih =>
      intro seen acc
      by_cases hseen : pr.number ∈ seen
      · obtain ⟨sub, heq, hsub⟩ := ih seen acc
        refine ⟨sub, ?_, hsub.cons pr⟩
        rw [show uniqueAux seen acc (pr :: rest)
              = uniqueAux seen acc rest by
            simp [uniqueAux, contains_eq_decide_mem, hseen], heq]
      · obtain ⟨sub, heq, hsub⟩ := ih (pr.number :: seen) (acc ++ [pr])
        refine ⟨pr :: sub, ?_, hsub.cons₂ pr⟩
        rw [show uniqueAux seen acc (pr :: rest)
              = uniqueAux (pr.number :: seen) (acc ++ [pr]) rest by
            simp [uniqueAux, contains_eq_decide_mem, hseen], heq]
        simp

theorem dedup_length_lt_of_not_nodup {ns : List Int} (h : ¬ ns.Nodup) :
    ns.dedup.length < ns.length := by
  have hsub := List.dedup_sublist ns
  rcases lt_or_eq_of_le hsub.length_le with hlt | heq
  · exact hlt
  · exact absurd ((hsub.eq_of_length heq) ▸ List.nodup_dedup ns) h

/-! ## Claim theorems -/

/-- C2, as stated, is false: in mode `list` with an empty explicit branch
list, `resolveBaseBranches` falls through directly to
`resolveDefaultBranch` and never consults `defaultBranchOverride`, so for a
target with override `"main"` and repository default branch `"develop"` it
returns `["develop"]`, not the singleton `["main"]` the claim requires. -/
theorem gitpushy_C2_counterexample :
    (resolveBaseBranches
        { owner := "acme", repo := "widgets", baseBranchesMode := some "list",
          baseBranches := some ([] : List String), defaultBranchOverride := some "main" }
        [] 0 (Except.ok (some "develop"))).1 = ["develop"]
    ∧ (["develop"] : List String) ≠ ["main"] := by
  decide

/-- C2, amended: for a target in mode `list` with an empty explicit branch
list, branch resolution falls through directly to the repository's
default-branch resolution, skipping the `defaultBranchOverride` shortcut;
it therefore coincides with mode `defaultOnly` only when no override is
present. -/
theorem gitpushy_C2_amended (target : Target) (cache : List (String × RepoMetaEntry))
    (now : Int) (metaFetch : Except String (Option String))
    (hmode : target.baseBranchesMode = some "list")
    (hempty : target.baseBranches = some []) :
    resolveBaseBranches target cache now metaFetch
      = resolveDefaultBranch target cache now metaFetch
    ∧ resolveBaseBranches
        { target with baseBranchesMode := some "defaultOnly", defaultBranchOverride := none }
        cache now metaFetch
      = resolveDefaultBranch target cache now metaFetch := by
  constructor
  · simp [resolveBaseBranches, hmode, hempty]
  · simp [resolveBaseBranches, truthyOpt]
    rfl

/-- C2 witness: a concrete target in mode `list` with an empty branch list
resolves exactly as `resolveDefaultBranch` does. -/
theorem gitpushy_C2_witness :
    resolveBaseBranches
        { owner := "acme", repo := "widgets", baseBranchesMode := some "list",
          baseBranches := some ([] : List String) }
        [] 0 (Except.ok (some "main"))
      = resolveDefaultBranch
          { owner := "acme", repo := "widgets", baseBranchesMode := some "list",
            baseBranches := some ([] : List String) }
          [] 0 (Except.ok (some "main")) :=
  (gitpushy_C2_amended _ [] 0 (Except.ok (some "main")) rfl rfl).1

/-- C3: `handleRateLimit` sets the suppression timestamp to
`resetEpochSeconds * 1000` exactly when the remaining quota is `"0"` and the
reset header parses to a number, and otherwise returns the previous state
unchanged (never clearing or shortening an existing suppression); after a
zero-quota response with reset epoch `T` is recorded and with backoff
enabled, `isRateLimited` holds at `now` exactly when `now < T * 1000`. -/
theorem gitpushy_C3 :
    (∀ (remaining reset : Option String) (st : Option Int) (s : String) (T : Nat),
        remaining = some "0" → reset = some s → s ≠ "" → jsNumber? s = some T →
        handleRateLimit remaining reset st = some ((T : Int) * 1000))
    ∧ (∀ (remaining reset : Option String) (st : Option Int),
        ¬(remaining = some "0" ∧ truthyOpt reset = true ∧ (reset.bind jsNumber?).isSome = true) →
        handleRateLimit remaining reset st = st)
    ∧ (∀ (config : Config) (st : Option Int) (s : String) (T : Nat),
        config.refresh.backoffOnRateLimit = true → s ≠ "" → jsNumber? s = some T →
        ∀ now : Int, 0 ≤ now →
          (isRateLimited config (handleRateLimit (some "0") (some s) st) now = true ↔
            now < (T : Int) * 1000)) := by
  refine ⟨?_, ?_, ?_⟩
  · intro remaining reset st s T h1 h2 h3 h4
    subst h1
    subst h2
    simp [handleRateLimit, h3, h4]
  · intro remaining reset st h
    cases reset with
    | none => simp [handleRateLimit]
    | some s =>
        simp only [handleRateLimit]
        split_ifs with hcond
        · cases hj : jsNumber? s with
          | none => simp [hj]
          | some T =>
              exact absurd ⟨hcond.1, by simp [truthyOpt, hcond.2], by simp [hj]⟩ h
        · rfl
  · intro config st s T hcfg hs hT now hnow
    have h1 : handleRateLimit (some "0") (some s) st = some ((T : Int) * 1000) := by
      simp [handleRateLimit, hs, hT]
    rw [h1]
    simp only [isRateLimited, hcfg]
    by_cases hT0 : T = 0
    · subst hT0
      simp
      omega
    · have hne : ((T : Int) * 1000) ≠ 0 := by omega
      simp [hne]

/-- C4: with the per-target results supplied to `fetchAllTargets`, the final
output has length at most `maxTotal`, is sorted descending by `updated_at`,
preserves (as a prefix of the merge stage's occurrence order) the relative
order of records with equal `updated_at`, and consists of the most recently
updated records of the merge stage: the dropped remainder consists only of
records no newer than any output record. -/
theorem gitpushy_C4 (targetPulls : List (List PullRecord)) (limits : LimitsConfig) :
    (fetchAllTargets targetPulls limits).length ≤ limits.maxTotal
    ∧ (fetchAllTargets targetPulls limits).Pairwise prGe
    ∧ (∀ t : Int, ((fetchAllTargets targetPulls limits).filter
          (fun p => p.updated_at == t)).IsPrefix
          ((mergeStage targetPulls limits.maxPerRepo).filter (fun p => p.updated_at == t)))
    ∧ ∃ rest, (mergeStage targetPulls limits.maxPerRepo).Perm
          (fetchAllTargets targetPulls limits ++ rest)
        ∧ ∀ x ∈ fetchAllTargets targetPulls limits, ∀ y ∈ rest,
            y.updated_at ≤ x.updated_at := by
  have heq := fetchAllTargets_eq targetPulls limits
  refine ⟨?_, ?_, ?_, ?_⟩
  · rw [heq]
    exact List.length_take_le _ _
  · rw [heq]
    exact List.Pairwise.sublist (List.take_sublist _ _)
      (sortByUpdatedDesc_pairwise (mergeStage targetPulls limits.maxPerRepo))
  · intro t
    rw [heq, ← filter_sortByUpdatedDesc t (mergeStage targetPulls limits.maxPerRepo)]
    exact filter_take_isPrefixOf _ _ _
  · refine ⟨(sortByUpdatedDesc (mergeStage targetPulls limits.maxPerRepo)).drop
        limits.maxTotal, ?_, ?_⟩
    · rw [heq, List.take_append_drop]
      exact (sortByUpdatedDesc_perm (mergeStage targetPulls limits.maxPerRepo)).symm
    · intro x hx y hy
      rw [heq] at hx
      have hpw2 : ((sortByUpdatedDesc (mergeStage targetPulls limits.maxPerRepo)).take
            limits.maxTotal
          ++ (sortByUpdatedDesc (mergeStage targetPulls limits.maxPerRepo)).drop
            limits.maxTotal).Pairwise prGe := by
        rw [List.take_append_drop]
        exact sortByUpdatedDesc_pairwise (mergeStage targetPulls limits.maxPerRepo)
      rcases List.pairwise_append.mp hpw2 with ⟨_, _, hcross⟩
      exact hcross x hx y hy

/-- C5: each target contributes its first `maxPerRepo` fetched records
(at most `maxPerRepo` many, a prefix-sublist of its own result list) to the
merge stage, and `fetchAllTargets` equals the global sort followed by the
global truncation applied to that already-capped merge stage — the
per-target cap precedes the global sort and `maxTotal` cut. -/
theorem gitpushy_C5 (targetPulls : List (List PullRecord)) (limits : LimitsConfig) :
    (∀ prs ∈ targetPulls,
        (prs.take limits.maxPerRepo).length ≤ limits.maxPerRepo
        ∧ (prs.take limits.maxPerRepo).Sublist prs)
    ∧ fetchAllTargets targetPulls limits
        = (sortByUpdatedDesc (mergeStage targetPulls limits.maxPerRepo)).take limits.maxTotal
    ∧ mergeStage targetPulls limits.maxPerRepo
        = (targetPulls.map (fun prs => prs.take limits.maxPerRepo)).flatten :=
  ⟨fun _ _ => ⟨List.length_take_le _ _, List.take_sublist _ _⟩,
    fetchAllTargets_eq _ _, rfl⟩

/-- C6: on a list containing duplicate pull requests sharing a number,
`uniquePulls` keeps, for every number, exactly the first-encountered
occurrence (in input order), drops all later duplicates, and returns as many
records as there are distinct numbers in the input (strictly fewer than the
input length). -/
theorem gitpushy_C6 (pulls : List RawPull)
    (hdup : ¬ (pulls.map (fun p => p.number)).Nodup) :
    (∀ n : Int, (uniquePulls pulls).filter (fun p => p.number == n)
        = (pulls.filter (fun p => p.number == n)).take 1)
    ∧ (uniquePulls pulls).Sublist pulls
    ∧ (uniquePulls pulls).length = (pulls.map (fun p => p.number)).dedup.length
    ∧ (uniquePulls pulls).length < pulls.length := by
  have hlen : (uniquePulls pulls).length = (pulls.map (fun p => p.number)).dedup.length := by
    rw [uniquePulls, length_uniqueAux, countNew_nil_eq_dedup_length]
    simp
  refine ⟨?_, ?_, hlen, ?_⟩
  · intro n
    have h := filter_uniqueAux n pulls [] []
    simpa [uniquePulls] using h
  · obtain ⟨sub, heq, hsub⟩ := uniqueAux_append_sublist pulls [] []
    rw [uniquePulls, heq]
    simpa using hsub
  · rw [hlen]
    have h := dedup_length_lt_of_not_nodup hdup
    simpa [List.length_map] using h

/-- C6 witness: two records sharing the number 1 dedup to a single record,
one per distinct number. -/
theorem gitpushy_C6_witness :
    (uniquePulls [{ number := 1, title := "a" }, { number := 1, title := "b" }]).length
      = (([{ number := 1, title := "a" }, { number := 1, title := "b" }] : List RawPull).map
          (fun p => p.number)).dedup.length :=
  (gitpushy_C6 _ (by decide)).2.2.1

/-- C7: a stale cache entry whose stored validator is presented and answered
`304 Not Modified` has exactly its freshness timestamp set to `now` —
payload and validator are unchanged, every other cache key is unchanged —
and the stored payload is returned (one network call issued). -/
theorem gitpushy_C7 {α : Type} (net : HttpReq → HttpResp α) (st : HttpState α)
    (url : String) (token : Option String) (cacheKey : String) (ttl : Int)
    (includePagination : Bool) (now : Int) (c : CacheEntry α) (etagVal : String)
    (hc : mapGet st.httpCache cacheKey = some c)
    (hstale : ¬ now - c.fetchedAt < ttl)
    (hetag : c.etag = some etagVal)
    (h304 : (net (requestOf url token (some etagVal))).status = 304) :
    httpGet net st url token cacheKey ttl includePagination now
      = (Except.ok c.data,
         { st with httpCache := mapSet st.httpCache cacheKey { c with fetchedAt := now } },
         1)
    ∧ mapGet (mapSet st.httpCache cacheKey { c with fetchedAt := now }) cacheKey
        = some { data := c.data, etag := c.etag, fetchedAt := now }
    ∧ ∀ k, k ≠ cacheKey →
        mapGet (mapSet st.httpCache cacheKey { c with fetchedAt := now }) k
          = mapGet st.httpCache k := by
  refine ⟨?_, ?_, ?_⟩
  · simp [httpGet, hc, hstale, httpFetchNetwork, hetag, h304]
  · rw [mapGet_mapSet_self]
  · intro k hk
    exact mapGet_mapSet_ne _ _ _ _ hk

/-- A concrete cache entry for the HTTP-cache witnesses. -/
def c7Entry : CacheEntry Nat :=
  { data := PayloadVal.plain 5, etag := some "W", fetchedAt := 0 }

/-- A concrete HTTP-cache state holding `c7Entry` under key `"k"`. -/
def c7State : HttpState Nat := { httpCache := [("k", c7Entry)] }

/-- A network oracle that always answers `304 Not Modified`. -/
def c7Net : HttpReq → HttpResp Nat := fun _ => { status := 304, json := 0 }

/-- C7 witness: the 304-revalidation path at a concrete stale entry. -/
theorem gitpushy_C7_witness :
    httpGet c7Net c7State "u" none "k" 10 false 50
      = (Except.ok c7Entry.data,
         { c7State with
             httpCache := mapSet c7State.httpCache "k" { c7Entry with fetchedAt := 50 } },
         1) :=
  (gitpushy_C7 c7Net c7State "u" none "k" 10 false 50 c7Entry "W"
    (by decide) (by decide) rfl rfl).1

/-- C8: two consecutive `httpGet` lookups of a key whose stored entry is
within TTL at both instants, with no intervening write, both return the
same stored payload, both leave the state unchanged, and both issue zero
network calls. -/
theorem gitpushy_C8 {α : Type} (net : HttpReq → HttpResp α) (st : HttpState α)
    (url : String) (token : Option String) (cacheKey : String) (ttl : Int)
    (includePagination : Bool) (now₁ now₂ : Int) (c : CacheEntry α)
    (hc : mapGet st.httpCache cacheKey = some c)
    (h1 : now₁ - c.fetchedAt < ttl) (h2 : now₂ - c.fetchedAt < ttl) :
    httpGet net st url token cacheKey ttl includePagination now₁
      = (Except.ok c.data, st, 0)
    ∧ httpGet net (httpGet net st url token cacheKey ttl includePagination now₁).2.1
        url token cacheKey ttl includePagination now₂
      = (Except.ok c.data, st, 0) := by
  have e1 : httpGet net st url token cacheKey ttl includePagination now₁
      = (Except.ok c.data, st, 0) := by
    simp [httpGet, hc, h1]
  exact ⟨e1, by rw [e1]; simp [httpGet, hc, h2]⟩

/-- C8 witness: two fresh lookups of a concrete cached entry. -/
theorem gitpushy_C8_witness :
    httpGet c7Net c7State "u" none "k" 10 false 1
      = (Except.ok c7Entry.data, c7State, 0) :=
  (gitpushy_C8 c7Net c7State "u" none "k" 10 false 1 2 c7Entry
    (by decide) (by decide) (by decide)).1

/-- C1, as stated, is false: `registerInstance` stores a freshly normalized
configuration object, so a registration occurring between a successful run
and a failing run discards the instance's last good list; the subsequent
failure's error signal then carries the empty list although a run had
succeeded with a non-empty list before. -/
theorem gitpushy_C1_counterexample :
    (let env : String → Option String :=
       fun v => if v = "GITHUB_TOKEN" then some "tok" else none
     let pr : PullRecord := { number := 1, updated_at := 5 }
     let st1 := registerInstance {} "a" none
     let run1 := fetchAndSend env 0 (Except.ok [pr]) st1 "a"
     let st3 := registerInstance run1.1 "a" none
     let run2 := fetchAndSend env 1 (Except.error (some "boom")) st3 "a"
     getCachedData run1.1 "a" = [pr]
     ∧ run2.2.1 = [Emission.error "a" "boom" []]
     ∧ ([] : List PullRecord) ≠ [pr]) := by
  decide

/-- C1, amended: every error signal a `fetchAndSend` run emits (rate-limit,
missing-credential or aggregation failure) carries the instance's currently
stored last good list (`getCachedData`, empty when none is stored); a
successful run stores the emitted list as the new last good list; and a
(re-)registration resets the stored last good list to empty — so the list
attached to an error is the most recent success since the instance's last
registration, not across registrations. -/
theorem gitpushy_C1_amended (env : String → Option String) (now : Int)
    (agg : Except (Option String) (List PullRecord)) (st : EngineState)
    (instanceId : String) (raw : Option PartialConfig) :
    (∀ m prs, Emission.error instanceId m prs ∈ (fetchAndSend env now agg st instanceId).2.1
        → prs = getCachedData st instanceId)
    ∧ (∀ prs, Emission.data instanceId prs ∈ (fetchAndSend env now agg st instanceId).2.1
        → getCachedData (fetchAndSend env now agg st instanceId).1 instanceId = prs)
    ∧ getCachedData (registerInstance st instanceId raw) instanceId = [] := by
  have hreg : getCachedData (registerInstance st instanceId raw) instanceId = [] := by
    simp [getCachedData, registerInstance, mapGet_mapSet_self]
  cases hg : mapGet st.instances instanceId with
  | none =>
      have heq : fetchAndSend env now agg st instanceId = (st, [], false) := by
        simp [fetchAndSend, hg]
      refine ⟨?_, ?_, hreg⟩
      · intro m prs hmem
        rw [heq] at hmem
        simp at hmem
      · intro prs hmem
        rw [heq] at hmem
        simp at hmem
  | some entry =>
      cases hrl : isRateLimited entry.config st.backoffUntil now with
      | true =>
          have heq : fetchAndSend env now agg st instanceId
              = (st, [Emission.error instanceId rateLimitMessage
                  (getCachedData st instanceId)], false) := by
            simp [fetchAndSend, hg, hrl]
          refine ⟨?_, ?_, hreg⟩
          · intro m prs hmem
            rw [heq] at hmem
            simp at hmem
            exact hmem.2
          · intro prs hmem
            rw [heq] at hmem
            simp at hmem
      | false =>
          by_cases hauth : truthyOpt (getAuthToken env entry.config) = false
              ∧ entry.config.alerts.showOnAuthError = true
          · have heq : fetchAndSend env now agg st instanceId
                = (st, [Emission.error instanceId (missingTokenMessage entry.config)
                    (getCachedData st instanceId)], false) := by
              simp [fetchAndSend, hg, hrl, hauth]
            refine ⟨?_, ?_, hreg⟩
            · intro m prs hmem
              rw [heq] at hmem
              simp at hmem
              exact hmem.2
            · intro prs hmem
              rw [heq] at hmem
              simp at hmem
          · cases agg with
            | ok prs₀ =>
                have hem : (fetchAndSend env now (Except.ok prs₀) st instanceId).2.1
                    = [Emission.data instanceId prs₀] := by
                  simp [fetchAndSend, hg, hrl, hauth]
                have hst : getCachedData
                    (fetchAndSend env now (Except.ok prs₀) st instanceId).1 instanceId
                    = prs₀ := by
                  simp [fetchAndSend, hg, hrl, hauth, getCachedData, mapGet_mapSet_self]
                refine ⟨?_, ?_, hreg⟩
                · intro m prs hmem
                  rw [hem] at hmem
                  simp at hmem
                · intro prs hmem
                  rw [hem] at hmem
                  simp at hmem
                  subst hmem
                  exact hst
            | error e =>
                have heq : fetchAndSend env now (Except.error e) st instanceId
                    = (st, [Emission.error instanceId (formatError e)
                        (getCachedData st instanceId)], true) := by
                  simp [fetchAndSend, hg, hrl, hauth]
                refine ⟨?_, ?_, hreg⟩
                · intro m prs hmem
                  rw [heq] at hmem
                  simp at hmem
                  exact hmem.2
                · intro prs hmem
                  rw [heq] at hmem
                  simp at hmem

/-- C9, as stated, is false: when the rate-limit guard is engaged, a fetch
trigger with no resolvable credential and `showOnAuthError` enabled emits
the rate-limit error, not a message identifying the missing-token
condition. -/
theorem gitpushy_C9_counterexample :
    (let st : EngineState :=
       { instances := [("a", { config := DEFAULT_CONFIG })], backoffUntil := some 1000000 }
     let run := fetchAndSend (fun _ => none) 0 (Except.ok []) st "a"
     getAuthToken (fun _ => none) DEFAULT_CONFIG = none
     ∧ DEFAULT_CONFIG.alerts.showOnAuthError = true
     ∧ run.2.1 = [Emission.error "a" rateLimitMessage []]
     ∧ rateLimitMessage ≠ missingTokenMessage DEFAULT_CONFIG) := by
  decide

/-- C9, amended: on a fetch trigger for a registered instance with the
rate-limit guard not engaged, no resolvable credential and
`alerts.showOnAuthError` true, the engine emits exactly one error signal
whose message is the missing-token text (beginning `Missing GitHub token`),
with the stored last good list attached, leaves the state unchanged, and
does not start the aggregation run — so no network access occurs and the
check precedes any network call, whatever the aggregation outcome would
have been. -/
theorem gitpushy_C9_amended (env : String → Option String) (now : Int)
    (agg : Except (Option String) (List PullRecord)) (st : EngineState)
    (instanceId : String) (entry : InstanceEntry)
    (hreg : mapGet st.instances instanceId = some entry)
    (hrl : isRateLimited entry.config st.backoffUntil now = false)
    (htok : truthyOpt (getAuthToken env entry.config) = false)
    (halert : entry.config.alerts.showOnAuthError = true) :
    fetchAndSend env now agg st instanceId
      = (st, [Emission.error instanceId (missingTokenMessage entry.config)
           (getCachedData st instanceId)], false)
    ∧ ∃ suffix, missingTokenMessage entry.config
        = "Missing GitHub token (set auth.token or env var " ++ suffix := by
  constructor
  · simp [fetchAndSend, hreg, hrl, htok, halert]
  · exact ⟨jsTemplateOpt entry.config.auth.tokenEnvVar ++ ").", rfl⟩

/-- C9 witness: a registered instance with the default configuration, an
empty environment and no stored suppression takes the missing-token error
path. -/
theorem gitpushy_C9_witness :
    fetchAndSend (fun _ => none) 0 (Except.ok [])
        { instances := [("a", { config := DEFAULT_CONFIG })] } "a"
      = ({ instances := [("a", { config := DEFAULT_CONFIG })] },
         [Emission.error "a" (missingTokenMessage DEFAULT_CONFIG)
            (getCachedData { instances := [("a", { config := DEFAULT_CONFIG })] } "a")],
         false) :=
  (gitpushy_C9_amended (fun _ => none) 0 (Except.ok [])
      { instances := [("a", { config := DEFAULT_CONFIG })] } "a"
      { config := DEFAULT_CONFIG } (by decide) (by decide) (by decide) (by decide)).1

/-- C10: an inbound socket notification with an absent payload, or with a
payload whose instance identifier is falsy, is a complete no-op: the engine
state (instances, timers, suppression timestamp) is returned unchanged, no
signal is emitted, and the aggregation run (the only source of network
calls or timer changes) is not started — for every notification name and
environment. -/
theorem gitpushy_C10 (notification : String) (env : String → Option String) (now : Int)
    (agg : Except (Option String) (List PullRecord)) (st : EngineState) :
    socketNotificationReceived notification none env now agg st = (st, [], false)
    ∧ ∀ p : SocketPayload, truthyOpt p.instanceId = false →
        socketNotificationReceived notification (some p) env now agg st = (st, [], false) := by
  constructor
  · rfl
  · intro p hp
    simp [socketNotificationReceived, hp]

end GitPushy
